import Mathlib

/-
Verification development for the editing-session core of the image
processing tool (src/ImageProcessingTool_Working.py).

The shallow embedding below translates the session state of
AdvancedImageProcessor (current_image, original_image, history,
history_index, session_stats) and its methods (add_to_history, undo,
redo, reset_image, open_image, process_with_progress, apply_adjustments,
auto_enhance, resize_image, export_all_formats) into Lean definitions.
Pixel data is modelled exactly at the level the program manipulates it:
images are rows of RGB byte triples; the PIL library calls the program
makes (ImageEnhance.Brightness / Contrast / Color / Sharpness, i.e.
Image.blend against a degenerate image) are modelled as deterministic
rational-arithmetic functions on that data.
-/

namespace ImageTool

/-- One RGB pixel: three byte samples (the program converts every loaded
image to RGB mode). -/
structure Pix where
  r : Nat
  g : Nat
  b : Nat
deriving DecidableEq, Repr

/-- An in-memory decoded image: rows of pixels (model of a PIL RGB image;
width and height are the row length and the number of rows). -/
structure ImageBuffer where
  rows : List (List Pix)
deriving DecidableEq, Repr

/-- Clamp an integer sample into the byte range, as PIL does when storing
a computed sample back into a uint8 image. -/
def clamp8 (x : Int) : Nat := (min 255 (max 0 x)).toNat

/-- Round a rational to the nearest integer, halves up (model of the
float-to-byte conversion PIL performs). -/
def roundR (q : Rat) : Int := (q + 1/2).floor

/-- Luminance of a pixel: model of the PIL RGB-to-L conversion
L = (299 R + 587 G + 114 B) / 1000, rounded. -/
def lum (p : Pix) : Nat := (299 * p.r + 587 * p.g + 114 * p.b + 500) / 1000

/-- Interpolate one channel between a degenerate sample d and the image
sample c with factor f: model of one channel of PIL Image.blend, as used
by every ImageEnhance enhancer. -/
def blendCh (f : Rat) (d c : Nat) : Nat :=
  clamp8 (roundR ((d : Rat) + f * ((c : Rat) - (d : Rat))))

/-- Interpolate a whole pixel between a degenerate pixel and the image
pixel (PIL Image.blend at one position). -/
def blendPix (f : Rat) (d p : Pix) : Pix :=
  ⟨blendCh f d.r p.r, blendCh f d.g p.g, blendCh f d.b p.b⟩

/-- Apply a pixel function at every position of an image. -/
def mapImage (h : Pix → Pix) (img : ImageBuffer) : ImageBuffer :=
  ⟨img.rows.map (fun row => row.map h)⟩

/-- Model of PIL ImageEnhance.Brightness(img).enhance f: blend between a
black image and the image. -/
def enhanceBrightness (f : Rat) (img : ImageBuffer) : ImageBuffer :=
  mapImage (blendPix f ⟨0, 0, 0⟩) img

/-- Mean grayscale level of an image, rounded to the nearest integer:
model of int(ImageStat.Stat(img.convert("L")).mean[0] + 0.5) inside PIL
ImageEnhance.Contrast. -/
def meanGray (img : ImageBuffer) : Nat :=
  let total := (img.rows.map (fun row => (row.map lum).sum)).sum
  let count := (img.rows.map List.length).sum
  if count = 0 then 0
  else (((total : Rat) / (count : Rat)) + 1/2).floor.toNat

/-- Model of PIL ImageEnhance.Contrast(img).enhance f: blend between a
uniform gray image at the mean luminance and the image. -/
def enhanceContrast (f : Rat) (img : ImageBuffer) : ImageBuffer :=
  let m := meanGray img
  mapImage (blendPix f ⟨m, m, m⟩) img

/-- Model of PIL ImageEnhance.Color(img).enhance f: blend between the
grayscale version of the image and the image. -/
def enhanceColor (f : Rat) (img : ImageBuffer) : ImageBuffer :=
  mapImage (fun p => blendPix f ⟨lum p, lum p, lum p⟩ p) img

/-- Pixel lookup with a black default, for the convolution below. -/
def pixAt (rows : List (List Pix)) (i j : Nat) : Pix :=
  (rows.getD i []).getD j ⟨0, 0, 0⟩

/-- One channel selected at a position. -/
def chAt (sel : Pix → Nat) (rows : List (List Pix)) (i j : Nat) : Nat :=
  sel (pixAt rows i j)

/-- One smoothed channel at an interior position: the 3 by 3 kernel
(1 1 1 / 1 5 1 / 1 1 1) over 13 of the PIL SMOOTH filter. -/
def smoothCh (sel : Pix → Nat) (rows : List (List Pix)) (i j : Nat) : Nat :=
  let s := chAt sel rows (i-1) (j-1) + chAt sel rows (i-1) j + chAt sel rows (i-1) (j+1)
         + chAt sel rows i (j-1) + 5 * chAt sel rows i j + chAt sel rows i (j+1)
         + chAt sel rows (i+1) (j-1) + chAt sel rows (i+1) j + chAt sel rows (i+1) (j+1)
  clamp8 (roundR ((s : Rat) / 13))

/-- Model of the PIL SMOOTH filter, the degenerate image used by
ImageEnhance.Sharpness: interior pixels are convolved with the fixed
kernel, border pixels are copied unchanged. -/
def smoothImage (img : ImageBuffer) : ImageBuffer :=
  let rows := img.rows
  let h := rows.length
  ⟨rows.mapIdx (fun i row =>
    let w := row.length
    row.mapIdx (fun j p =>
      if i = 0 ∨ j = 0 ∨ i + 1 = h ∨ j + 1 = w then p
      else ⟨smoothCh Pix.r rows i j, smoothCh Pix.g rows i j, smoothCh Pix.b rows i j⟩))⟩

/-- Model of PIL ImageEnhance.Sharpness(img).enhance f: blend between the
smoothed image and the image. -/
def enhanceSharpness (f : Rat) (img : ImageBuffer) : ImageBuffer :=
  ⟨List.zipWith (fun dr pr => List.zipWith (blendPix f) dr pr)
    (smoothImage img).rows img.rows⟩

/-- Model of PIL Image.resize to target dimensions w by h (the program
uses LANCZOS resampling; the resampling kernel is modelled as point
sampling, the produced dimensions are the target ones). -/
def resize_buffer (img : ImageBuffer) (w h : Nat) : ImageBuffer :=
  let oh := img.rows.length
  let ow := (img.rows.headD []).length
  ⟨(List.range h).map (fun i => (List.range w).map (fun j =>
     pixAt img.rows (i * oh / h) (j * ow / w)))⟩

/-- User-visible outcome of one UI entry point: nothing shown, the
completion status message, the processing-failed error box, the invalid
parameter error box, or the no-image warning box. -/
inductive Notify where
  | silent
  | completed
  | procError (msg : String)
  | invalidParam
  | noImageWarning
deriving DecidableEq, Repr

/-- The mutable editing-session state of AdvancedImageProcessor:
current_image, original_image, the bounded history deque with its
cursor history_index (a Python int, -1 before any load), and the two
session counters. -/
structure Session where
  current_image : Option ImageBuffer
  original_image : Option ImageBuffer
  history : List ImageBuffer
  history_index : Int
  images_processed : Nat
  operations_performed : Nat
deriving DecidableEq, Repr

/-- Translation of add_to_history: when an image is loaded, drop every
entry after the cursor (the redo tail), append a copy of the current
image, let the capacity-20 deque evict from the front if it overflows,
and set the cursor to the new tail. -/
def add_to_history (s : Session) : Session :=
  match s.current_image with
  | none => s
  | some c =>
    let kept := if s.history_index < (s.history.length : Int) - 1
      then s.history.take (s.history_index + 1).toNat
      else s.history
    let h1 := kept ++ [c]
    let h2 := if 20 < h1.length then h1.drop (h1.length - 20) else h1
    { s with history := h2, history_index := (h2.length : Int) - 1 }

/-- Translation of undo: when the cursor is above 0, decrement it and
restore that snapshot as the current image. -/
def undo (s : Session) : Session :=
  if 0 < s.history_index then
    match s.history[(s.history_index - 1).toNat]? with
    | some b => { s with history_index := s.history_index - 1, current_image := some b }
    | none => { s with history_index := s.history_index - 1 }
  else s

/-- Translation of redo: when the cursor is strictly before the tail,
increment it and restore that snapshot as the current image. -/
def redo (s : Session) : Session :=
  if s.history_index < (s.history.length : Int) - 1 then
    match s.history[(s.history_index + 1).toNat]? with
    | some b => { s with history_index := s.history_index + 1, current_image := some b }
    | none => { s with history_index := s.history_index + 1 }
  else s

/-- Translation of reset_image (with the confirmation dialog answered
yes): restore the original image and reseed the history with it. -/
def reset_image (s : Session) : Session :=
  match s.original_image with
  | none => s
  | some o =>
    { s with current_image := some o, history := [o], history_index := 0 }

/-- Translation of the state changes of open_image on a successful load:
both buffers become the decoded image, the history is cleared and
reseeded with one entry at cursor 0, and the load counter increments. -/
def open_image (s : Session) (img : ImageBuffer) : Session :=
  { s with original_image := some img, current_image := some img,
           history := [img], history_index := 0,
           images_processed := s.images_processed + 1 }

/-- Translation of process_with_progress: a silent return when no image
is loaded; otherwise snapshot the pre-operation state into the history,
run the transform on the worker, and on success install the result as
the current image and bump the operation counter, while on a raised
error show the error box and leave the current image untouched. -/
def process_with_progress (s : Session)
    (proc : ImageBuffer → Except String ImageBuffer) : Session × Notify :=
  match s.current_image with
  | none => (s, Notify.silent)
  | some cur =>
    let s1 := add_to_history s
    match proc cur with
    | Except.ok res =>
      ({ s1 with current_image := some res,
                 operations_performed := s1.operations_performed + 1 },
       Notify.completed)
    | Except.error e => (s1, Notify.procError e)

/-- The brightness block of apply_adjustments: the enhancer runs only
when the slider is away from 1.0. -/
def brightnessStage (f : Rat) (img : ImageBuffer) : ImageBuffer :=
  if f ≠ 1 then enhanceBrightness f img else img

/-- The contrast block of apply_adjustments. -/
def contrastStage (f : Rat) (img : ImageBuffer) : ImageBuffer :=
  if f ≠ 1 then enhanceContrast f img else img

/-- The saturation block of apply_adjustments (ImageEnhance.Color). -/
def saturationStage (f : Rat) (img : ImageBuffer) : ImageBuffer :=
  if f ≠ 1 then enhanceColor f img else img

/-- The adjust closure of apply_adjustments: start from a copy of the
original image, then brightness, then contrast, then saturation. -/
def adjust (orig : ImageBuffer) (bri con sat : Rat) : ImageBuffer :=
  saturationStage sat (contrastStage con (brightnessStage bri orig))

/-- Translation of apply_adjustments: an early return when no original
image exists, else dispatch the adjust closure (which reads the original
image, not the current one) through process_with_progress. -/
def apply_adjustments (s : Session) (bri con sat : Rat) : Session × Notify :=
  match s.original_image with
  | none => (s, Notify.silent)
  | some orig =>
    process_with_progress s (fun _ => Except.ok (adjust orig bri con sat))

/-- The enhance closure of auto_enhance: contrast times 1.2, then color
times 1.1, then sharpness times 1.1, on the image it receives. -/
def auto_enhance_fn (cur : ImageBuffer) : ImageBuffer :=
  enhanceSharpness (11/10) (enhanceColor (11/10) (enhanceContrast (12/10) cur))

/-- Translation of auto_enhance: guarded on a loaded image, dispatches
the enhance closure over the current image. -/
def auto_enhance (s : Session) : Session × Notify :=
  match s.current_image with
  | none => (s, Notify.silent)
  | some _ =>
    process_with_progress s (fun cur => Except.ok (auto_enhance_fn cur))

/-- Translation of resize_image. The two entry strings are modelled by
their Python int(...) parse results (none when int raises ValueError):
a warning when no image is loaded; the Invalid-dimensions error box when
a parse fails or a dimension is nonpositive, with nothing dispatched;
otherwise dispatch the resize. -/
def resize_image (s : Session) (wIn hIn : Option Int) : Session × Notify :=
  match s.current_image with
  | none => (s, Notify.noImageWarning)
  | some _ =>
    match wIn, hIn with
    | some w, some h =>
      if w ≤ 0 ∨ h ≤ 0 then (s, Notify.invalidParam)
      else process_with_progress s
        (fun cur => Except.ok (resize_buffer cur w.toNat h.toNat))
    | _, _ => (s, Notify.invalidParam)

/-- Output encodings offered by the export tools. -/
inductive Format where
  | png
  | jpeg
  | webp
deriving DecidableEq, Repr

/-- The body of the single try block of export_all_formats: encode the
formats in order, accumulating the successfully written ones; the first
raised encode error aborts the loop and surfaces as the error box. -/
def export_loop (save : Format → Except String Unit) :
    List Format → List Format → List Format × Option String
  | [], exported => (exported.reverse, none)
  | fmt :: rest, exported =>
    match save fmt with
    | Except.ok _ => export_loop save rest (fmt :: exported)
    | Except.error e => (exported.reverse, some e)

/-- Translation of export_all_formats: a warning when no image is
loaded, else the sequential encode loop over PNG, JPEG, WebP with one
try/except around the whole loop. The filesystem encoder is passed in
as a function; the result collects the formats written before the first
failure and the failure message, the two observables of the method. -/
def export_all_formats (s : Session)
    (save : Format → ImageBuffer → Except String Unit) :
    List Format × Option String :=
  match s.current_image with
  | none => ([], some "No image loaded!")
  | some img =>
    export_loop (fun fmt => save fmt img) [Format.png, Format.jpeg, Format.webp] []

/-- One step of applying an effect through process_with_progress with a
transform that completes normally. -/
def effectStep (s : Session) (f : ImageBuffer → ImageBuffer) : Session :=
  (process_with_progress s (fun c => Except.ok (f c))).fst

/-- Apply a sequence of effect operations in order. -/
def applyEffects (fs : List (ImageBuffer → ImageBuffer)) (s : Session) : Session :=
  fs.foldl effectStep s

/-- Session operations for quantifying over operation sequences. -/
inductive SOp where
  | effect (f : ImageBuffer → ImageBuffer)
  | undoOp
  | redoOp
  | resetOp
  | loadOp (b : ImageBuffer)

/-- Run one session operation. -/
def applyOp (s : Session) : SOp → Session
  | SOp.effect f => effectStep s f
  | SOp.undoOp => undo s
  | SOp.redoOp => redo s
  | SOp.resetOp => reset_image s
  | SOp.loadOp b => open_image s b

/-- Run a sequence of session operations. -/
def applyOps (ops : List SOp) (s : Session) : Session := ops.foldl applyOp s

/-- Iterate undo. -/
def undoN : Nat → Session → Session
  | 0, s => s
  | n+1, s => undoN n (undo s)

/-- Iterate redo. -/
def redoN : Nat → Session → Session
  | 0, s => s
  | n+1, s => redoN n (redo s)

/-! Basic preservation lemmas for the session operations. -/

theorem capped_len_le (l : List ImageBuffer) :
    (if 20 < l.length then l.drop (l.length - 20) else l).length ≤ 20 := by
  split
  · rw [List.length_drop]; omega
  · omega

theorem drop_one_append (l : List ImageBuffer) (c : ImageBuffer) (h : l ≠ []) :
    (l ++ [c]).drop 1 = l.drop 1 ++ [c] := by
  cases l with
  | nil => exact absurd rfl h
  | cons a t => simp

theorem add_to_history_current (s : Session) :
    (add_to_history s).current_image = s.current_image := by
  unfold add_to_history
  cases hc : s.current_image <;> simp [hc]

theorem add_to_history_original (s : Session) :
    (add_to_history s).original_image = s.original_image := by
  unfold add_to_history
  cases hc : s.current_image <;> simp [hc]

theorem add_to_history_ops (s : Session) :
    (add_to_history s).operations_performed = s.operations_performed := by
  unfold add_to_history
  cases hc : s.current_image <;> simp [hc]

theorem add_to_history_images (s : Session) :
    (add_to_history s).images_processed = s.images_processed := by
  unfold add_to_history
  cases hc : s.current_image <;> simp [hc]

theorem undo_history (s : Session) : (undo s).history = s.history := by
  unfold undo
  split
  · split <;> rfl
  · rfl

theorem redo_history (s : Session) : (redo s).history = s.history := by
  unfold redo
  split
  · split <;> rfl
  · rfl

theorem undo_original (s : Session) : (undo s).original_image = s.original_image := by
  unfold undo
  split
  · split <;> rfl
  · rfl

theorem add_to_history_len_le (s : Session) (h : s.history.length ≤ 20) :
    (add_to_history s).history.length ≤ 20 := by
  cases hc : s.current_image with
  | none => unfold add_to_history; rw [hc]; exact h
  | some c => unfold add_to_history; rw [hc]; exact capped_len_le _

/-- Shape of a snapshot taken while the cursor is at the tail of a
non-full history: plain append, cursor at the new tail. -/
theorem add_to_history_tail_small (s : Session) (c : ImageBuffer)
    (hc : s.current_image = some c)
    (hidx : s.history_index = (s.history.length : Int) - 1)
    (hlen : s.history.length ≤ 19) :
    add_to_history s =
      { s with history := s.history ++ [c],
               history_index := (s.history.length : Int) } := by
  have hguard : ¬ s.history_index < (s.history.length : Int) - 1 := by omega
  have hd : ¬ 20 < s.history.length + 1 := by omega
  unfold add_to_history
  rw [hc]
  simp only [hguard, if_false, List.length_append, List.length_singleton, hd]
  have harith : ((s.history.length + 1 : Nat) : Int) - 1 = (s.history.length : Int) := by
    push_cast; ring
  rw [harith]

/-- Shape of a snapshot taken while the cursor is at the tail of a full
history: the oldest entry is evicted and the cursor stays at 19. -/
theorem add_to_history_tail_full (s : Session) (c : ImageBuffer)
    (hc : s.current_image = some c)
    (hidx : s.history_index = (s.history.length : Int) - 1)
    (hlen : s.history.length = 20) :
    add_to_history s =
      { s with history := s.history.drop 1 ++ [c], history_index := 19 } := by
  have hguard : ¬ s.history_index < (s.history.length : Int) - 1 := by omega
  have hne : s.history ≠ [] := by
    intro h0; rw [h0] at hlen; simp at hlen
  have hd : 20 < (s.history ++ [c]).length := by
    rw [List.length_append, List.length_singleton]; omega
  have h1 : (s.history ++ [c]).length - 20 = 1 := by
    rw [List.length_append, List.length_singleton]; omega
  have hlen2 : ((s.history.drop 1 ++ [c]).length : Int) - 1 = 19 := by
    rw [List.length_append, List.length_singleton, List.length_drop]
    have : s.history.length - 1 + 1 = 20 := by omega
    rw [this]; norm_num
  unfold add_to_history
  rw [hc]
  simp only [hguard, if_false, hd, if_true, h1, drop_one_append _ _ hne]
  rw [hlen2]

/-- Shape of a snapshot taken while the cursor is strictly before the
tail: the redo tail is discarded, the snapshot is appended, the cursor
moves to the new tail. No eviction can occur in this case. -/
theorem add_to_history_truncate (s : Session) (c : ImageBuffer)
    (hc : s.current_image = some c)
    (hidx : s.history_index < (s.history.length : Int) - 1)
    (hlen : s.history.length ≤ 20) :
    add_to_history s =
      { s with history := s.history.take (s.history_index + 1).toNat ++ [c],
               history_index :=
                 ((s.history.take (s.history_index + 1).toNat ++ [c]).length : Int) - 1 } := by
  have htk : (s.history.take (s.history_index + 1).toNat).length ≤ 19 := by
    rw [List.length_take]; omega
  have hd : ¬ 20 < (s.history.take (s.history_index + 1).toNat ++ [c]).length := by
    rw [List.length_append, List.length_singleton]; omega
  unfold add_to_history
  rw [hc]
  simp only [hidx, if_true, hd, if_false]

/-- The snapshotted buffer is always present in the history afterwards. -/
theorem add_to_history_mem (s : Session) (c : ImageBuffer)
    (hc : s.current_image = some c) (hlen : s.history.length ≤ 20) :
    c ∈ (add_to_history s).history := by
  have hmem : ∀ (kept : List ImageBuffer), kept.length ≤ 20 →
      c ∈ (if 20 < (kept ++ [c]).length
        then (kept ++ [c]).drop ((kept ++ [c]).length - 20) else kept ++ [c]) := by
    intro kept hkl
    split
    · next hd =>
      have h1 : (kept ++ [c]).length - 20 = 1 := by
        rw [List.length_append, List.length_singleton] at hd ⊢; omega
      have hkne : kept ≠ [] := by
        intro h0; rw [h0] at hd; simp at hd
      rw [h1, drop_one_append _ _ hkne]
      simp
    · simp
  unfold add_to_history
  rw [hc]
  refine hmem _ ?_
  split
  · rw [List.length_take]; omega
  · exact hlen

/-! Lemmas about iterated undo and redo. -/

theorem effectStep_eq (s : Session) (f : ImageBuffer → ImageBuffer) (c : ImageBuffer)
    (hc : s.current_image = some c) :
    effectStep s f =
      { add_to_history s with
          current_image := some (f c),
          operations_performed := (add_to_history s).operations_performed + 1 } := by
  unfold effectStep process_with_progress
  rw [hc]

theorem undo_of_nonpos (s : Session) (h : s.history_index ≤ 0) : undo s = s := by
  unfold undo
  rw [if_neg (by omega)]

theorem undoN_of_nonpos (m : Nat) (s : Session) (h : s.history_index ≤ 0) :
    undoN m s = s := by
  induction m with
  | zero => rfl
  | succ n ih =>
    show undoN n (undo s) = s
    rw [undo_of_nonpos s h]
    exact ih

theorem redo_of_tail (s : Session)
    (h : ¬ s.history_index < (s.history.length : Int) - 1) : redo s = s := by
  unfold redo
  rw [if_neg h]

theorem redoN_of_tail (k : Nat) (s : Session)
    (h : ¬ s.history_index < (s.history.length : Int) - 1) : redoN k s = s := by
  induction k with
  | zero => rfl
  | succ n ih =>
    show redoN n (redo s) = s
    rw [redo_of_tail s h]
    exact ih

theorem undoN_hist (k : Nat) : ∀ s : Session, (undoN k s).history = s.history := by
  induction k with
  | zero => intro s; rfl
  | succ n ih =>
    intro s
    show (undoN n (undo s)).history = s.history
    rw [ih, undo_history]

/-- The current image after any number of undos is either the current
image before them or one of the stored snapshots: undo can only restore
what is in the history. -/
theorem undoN_mem (k : Nat) : ∀ s : Session,
    (undoN k s).current_image = s.current_image ∨
    ∃ x ∈ s.history, (undoN k s).current_image = some x := by
  induction k with
  | zero => intro s; left; rfl
  | succ n ih =>
    intro s
    have hstep : undoN (n+1) s = undoN n (undo s) := rfl
    rw [hstep]
    rcases ih (undo s) with h | ⟨x, hx, h⟩
    · rw [h]
      by_cases hg : 0 < s.history_index
      · cases hb : s.history[(s.history_index - 1).toNat]? with
        | some b =>
          right
          have hu : (undo s).current_image = some b := by
            unfold undo
            rw [if_pos hg, hb]
          exact ⟨b, List.getElem?_mem hb, hu⟩
        | none =>
          left
          have hu : (undo s).current_image = s.current_image := by
            unfold undo
            rw [if_pos hg, hb]
          exact hu
      · left
        rw [undo_of_nonpos s (by omega)]
    · right
      rw [undo_history] at hx
      exact ⟨x, hx, h⟩

/-- When the cursor starts at a positive position within bounds and at
least that many undos are performed, the current image ends at the
oldest stored snapshot. -/
theorem undoN_reach_zero : ∀ (m : Nat) (s : Session),
    1 ≤ s.history_index → s.history_index ≤ (m : Int) →
    s.history_index < (s.history.length : Int) →
    (undoN m s).current_image = s.history[0]? := by
  intro m
  induction m with
  | zero =>
    intro s h1 h2 _
    exact absurd h2 (by omega)
  | succ n ih =>
    intro s h1 h2 h3
    have hg : 0 < s.history_index := by omega
    have hvalid : (s.history_index - 1).toNat < s.history.length := by omega
    obtain ⟨b, hb⟩ : ∃ b, s.history[(s.history_index - 1).toNat]? = some b :=
      ⟨_, List.getElem?_eq_getElem hvalid⟩
    have hundo : undo s =
        { s with history_index := s.history_index - 1, current_image := some b } := by
      unfold undo
      rw [if_pos hg, hb]
    have hstep : undoN (n+1) s = undoN n (undo s) := rfl
    rw [hstep, hundo]
    by_cases hone : s.history_index = 1
    · have hz : ({ s with
          history_index := s.history_index - 1,
          current_image := some b } : Session).history_index ≤ 0 := by
        simp [hone]
      rw [undoN_of_nonpos n _ hz]
      have h00 : (s.history_index - 1).toNat = 0 := by omega
      rw [h00] at hb
      exact hb.symm
    · have h1' : 1 ≤ s.history_index - 1 := by omega
      have h2' : s.history_index - 1 ≤ (n : Int) := by push_cast at h2 ⊢; omega
      have h3' : s.history_index - 1 < (s.history.length : Int) := by omega
      exact ih _ h1' h2' h3'

/-! The per-step invariant for a freshly loaded session followed by
successful effect operations. -/

/-- Invariant after k effect operations on a fresh load of img0: the
history length is capped at 20, the cursor sits at the tail, an image is
loaded, the oldest stored entry is still the load-time buffer, and (as
long as at most one eviction has not yet happened) so is the second
entry. -/
def Inv (img0 : ImageBuffer) (k : Nat) (s : Session) : Prop :=
  s.history.length = min (k+1) 20 ∧
  s.history_index = (s.history.length : Int) - 1 ∧
  s.current_image.isSome = true ∧
  s.history[0]? = some img0 ∧
  (1 ≤ k → k ≤ 19 → s.history[1]? = some img0) ∧
  (k = 0 → s.current_image = some img0)

theorem inv_load (s : Session) (img0 : ImageBuffer) : Inv img0 0 (open_image s img0) := by
  refine ⟨rfl, by norm_num [open_image], rfl, rfl, ?_, fun _ => rfl⟩
  intro h1 _
  exact absurd h1 (by omega)

theorem inv_step (img0 : ImageBuffer) (k : Nat) (s : Session)
    (f : ImageBuffer → ImageBuffer) (hk : k ≤ 19) (h : Inv img0 k s) :
    Inv img0 (k+1) (effectStep s f) := by
  obtain ⟨hlen, hidx, hcur, h0, h1, hcur0⟩ := h
  obtain ⟨c, hc⟩ := Option.isSome_iff_exists.mp hcur
  rw [effectStep_eq s f c hc]
  by_cases hk18 : k ≤ 18
  · have hsmall : s.history.length ≤ 19 := by omega
    rw [add_to_history_tail_small s c hc hidx hsmall]
    have hpos : 0 < s.history.length := by omega
    refine ⟨?_, ?_, rfl, ?_, ?_, ?_⟩
    · simp only [List.length_append, List.length_singleton]
      omega
    · simp only [List.length_append, List.length_singleton]
      push_cast
      ring
    · show (s.history ++ [c])[0]? = some img0
      rw [List.getElem?_append_left hpos]
      exact h0
    · intro _ hk19
    -- the second stored entry: for k = 0 it is the snapshot of the
    -- still-unmodified current image, for larger k it was already there
      show (s.history ++ [c])[1]? = some img0
      by_cases hk0 : k = 0
      · have hl1 : s.history.length = 1 := by omega
        rw [List.getElem?_append_right (by omega), hl1]
        have := hcur0 hk0
        rw [hc] at this
        simpa using this
      · have hl2 : 1 < s.history.length := by omega
        rw [List.getElem?_append_left hl2]
        exact h1 (by omega) (by omega)
    · intro h; exact absurd h (by omega)
  · have hfull : s.history.length = 20 := by omega
    rw [add_to_history_tail_full s c hc hidx hfull]
    have hd1 : (s.history.drop 1).length = 19 := by
      rw [List.length_drop]; omega
    refine ⟨?_, ?_, rfl, ?_, ?_, ?_⟩
    · simp only [List.length_append, List.length_singleton]
      omega
    · simp only [List.length_append, List.length_singleton]
      rw [hd1]
      norm_num
    · show (s.history.drop 1 ++ [c])[0]? = some img0
      rw [List.getElem?_append_left (by omega), List.getElem?_drop]
      exact h1 (by omega) (by omega)
    · intro _ hk19
      exact absurd hk19 (by omega)
    · intro h; exact absurd h (by omega)

theorem inv_applyEffects (img0 : ImageBuffer) :
    ∀ (fs : List (ImageBuffer → ImageBuffer)) (k : Nat) (s : Session),
    Inv img0 k s → k + fs.length ≤ 20 →
    Inv img0 (k + fs.length) (applyEffects fs s) := by
  intro fs
  induction fs with
  | nil =>
    intro k s h _
    simpa [applyEffects] using h
  | cons f fs ih =>
    intro k s h hle
    have hlen : (f :: fs).length = fs.length + 1 := rfl
    rw [hlen] at hle ⊢
    have hk : k ≤ 19 := by omega
    have h1 := inv_step img0 k s f hk h
    have h2 := ih (k+1) (effectStep s f) h1 (by omega)
    have hfold : applyEffects (f :: fs) s = applyEffects fs (effectStep s f) := rfl
    rw [hfold]
    have harith : k + (fs.length + 1) = (k + 1) + fs.length := by omega
    rw [harith]
    exact h2

/-! Preservation of the capacity bound by every session operation. -/

theorem applyOp_len (s : Session) (op : SOp) (h : s.history.length ≤ 20) :
    (applyOp s op).history.length ≤ 20 := by
  cases op with
  | effect f =>
    show (effectStep s f).history.length ≤ 20
    cases hc : s.current_image with
    | none =>
      unfold effectStep process_with_progress
      rw [hc]
      exact h
    | some c =>
      rw [effectStep_eq s f c hc]
      exact add_to_history_len_le s h
  | undoOp =>
    show (undo s).history.length ≤ 20
    rw [undo_history]
    exact h
  | redoOp =>
    show (redo s).history.length ≤ 20
    rw [redo_history]
    exact h
  | resetOp =>
    show (reset_image s).history.length ≤ 20
    unfold reset_image
    cases ho : s.original_image with
    | none => exact h
    | some o => simp
  | loadOp b =>
    show (open_image s b).history.length ≤ 20
    simp [open_image]

theorem applyOps_len (ops : List SOp) : ∀ s : Session, s.history.length ≤ 20 →
    (applyOps ops s).history.length ≤ 20 := by
  induction ops with
  | nil => intro s h; exact h
  | cons op rest ih =>
    intro s h
    show (applyOps rest (applyOp s op)).history.length ≤ 20
    exact ih _ (applyOp_len s op h)

/-! Concrete sample data used by the witness theorems. -/

def img1 : ImageBuffer := ⟨[[⟨100, 150, 200⟩]]⟩

def img2 : ImageBuffer := ⟨[[⟨1, 2, 3⟩]]⟩

def img3 : ImageBuffer := ⟨[[⟨4, 5, 6⟩]]⟩

def imgN (n : Nat) : ImageBuffer := ⟨[[⟨n, 0, 0⟩]]⟩

def emptySession : Session := ⟨none, none, [], -1, 0, 0⟩

def sLoaded : Session := open_image emptySession img1

def sMid : Session := ⟨some img2, some img1, [img1, img2, img3], 1, 1, 2⟩

def hist20 : List ImageBuffer := (List.range 20).map imgN

def sFull : Session := ⟨some img1, some img1, hist20, 19, 1, 5⟩

/-! The claim theorems. -/

/-- C1: for every freshly loaded image and every sequence of N with
N at most 20 effect operations applied after the load (each operation
snapshots the pre-operation state into the capacity-20 history before
running), calling undo N times leaves the current buffer bit-identical
to the buffer captured at load time. -/
theorem C1_undo_returns_to_load (img0 : ImageBuffer) (s : Session)
    (fs : List (ImageBuffer → ImageBuffer)) (hN : fs.length ≤ 20) :
    (undoN fs.length (applyEffects fs (open_image s img0))).current_image
      = some img0 := by
  have hInv := inv_applyEffects img0 fs 0 (open_image s img0) (inv_load s img0)
    (by omega)
  rw [Nat.zero_add] at hInv
  obtain ⟨hlen, hidx, hcur, h0, h1, hcur0⟩ := hInv
  by_cases hz : fs.length = 0
  · rw [hz]
    exact hcur0 hz
  · have hi1 : 1 ≤ (applyEffects fs (open_image s img0)).history_index := by omega
    have hi2 : (applyEffects fs (open_image s img0)).history_index
        ≤ (fs.length : Int) := by omega
    have hi3 : (applyEffects fs (open_image s img0)).history_index
        < ((applyEffects fs (open_image s img0)).history.length : Int) := by omega
    rw [undoN_reach_zero fs.length _ hi1 hi2 hi3]
    exact h0

theorem C1_witness :
    (undoN 2 (applyEffects [fun _ => img2, fun _ => img3]
      (open_image emptySession img1))).current_image = some img1 :=
  C1_undo_returns_to_load img1 emptySession [fun _ => img2, fun _ => img3]
    (by decide)

/-- C3: the history never holds more than 20 entries under any sequence
of session operations, and once a snapshot past capacity has evicted the
oldest entry, that entry is gone from the stack and no number of undo
calls can make it current again (given it is distinct from the surviving
entries and from the pushed buffer). -/
theorem C3_capacity_and_eviction (ops : List SOp) (s1 s2 : Session)
    (c e : ImageBuffer) (k : Nat)
    (h1 : s1.history.length ≤ 20)
    (hc : s2.current_image = some c)
    (hlen : s2.history.length = 20)
    (hidx : s2.history_index = 19)
    (_hhead : s2.history[0]? = some e)
    (hdropmem : e ∉ s2.history.drop 1)
    (hne : e ≠ c) :
    (applyOps ops s1).history.length ≤ 20 ∧
    (add_to_history s2).history = s2.history.drop 1 ++ [c] ∧
    e ∉ (add_to_history s2).history ∧
    (undoN k (add_to_history s2)).current_image ≠ some e := by
  have hidx' : s2.history_index = (s2.history.length : Int) - 1 := by omega
  have hfull := add_to_history_tail_full s2 c hc hidx' hlen
  have hhist : (add_to_history s2).history = s2.history.drop 1 ++ [c] := by
    rw [hfull]
  have hnotin : e ∉ (add_to_history s2).history := by
    rw [hhist]
    intro hm
    rcases List.mem_append.mp hm with hm | hm
    · exact hdropmem hm
    · exact hne (by simpa using hm)
  refine ⟨applyOps_len ops s1 h1, hhist, hnotin, ?_⟩
  rcases undoN_mem k (add_to_history s2) with hcase | ⟨x, hx, hcase⟩
  · rw [hcase, add_to_history_current s2, hc]
    intro hh
    have : c = e := by simpa using hh
    exact hne this.symm
  · rw [hcase]
    intro hh
    have hxe : x = e := by simpa using hh
    rw [hxe] at hx
    exact hnotin hx

theorem C3_witness :
    (applyOps [SOp.undoOp] sFull).history.length ≤ 20 ∧
    (add_to_history sFull).history = sFull.history.drop 1 ++ [img1] ∧
    imgN 0 ∉ (add_to_history sFull).history ∧
    (undoN 25 (add_to_history sFull)).current_image ≠ some (imgN 0) :=
  C3_capacity_and_eviction [SOp.undoOp] sFull sFull img1 (imgN 0) 25
    (by decide) rfl (by decide) rfl (by decide) (by decide) (by decide)

/-- C4: taking a snapshot while the cursor sits strictly before the tail
discards every entry after the cursor, appends the snapshot, and puts
the cursor at the new tail, after which any number of redo calls is a
no-op, so nothing from the discarded redo branch can be recovered. -/
theorem C4_branch_truncation (s : Session) (c : ImageBuffer) (k : Nat)
    (hc : s.current_image = some c)
    (hidx : s.history_index < (s.history.length : Int) - 1)
    (hlen : s.history.length ≤ 20) :
    (add_to_history s).history
      = s.history.take (s.history_index + 1).toNat ++ [c] ∧
    (add_to_history s).history_index
      = ((add_to_history s).history.length : Int) - 1 ∧
    redoN k (add_to_history s) = add_to_history s := by
  rw [add_to_history_truncate s c hc hidx hlen]
  refine ⟨rfl, rfl, ?_⟩
  apply redoN_of_tail
  dsimp only
  omega

theorem C4_witness :
    (add_to_history sMid).history
      = sMid.history.take (sMid.history_index + 1).toNat ++ [img2] ∧
    (add_to_history sMid).history_index
      = ((add_to_history sMid).history.length : Int) - 1 ∧
    redoN 5 (add_to_history sMid) = add_to_history sMid :=
  C4_branch_truncation sMid img2 5 rfl (by decide) (by decide)

/-- C8: when a dispatched transform raises on the worker, the error box
fires, the current buffer keeps its pre-dispatch value, the pre-dispatch
snapshot remains in the history stack, and neither the original buffer
nor the operation counter changes. -/
theorem C8_failed_op_state (s : Session)
    (proc : ImageBuffer → Except String ImageBuffer) (cur : ImageBuffer)
    (e : String)
    (hc : s.current_image = some cur)
    (hf : proc cur = Except.error e)
    (hlen : s.history.length ≤ 20) :
    process_with_progress s proc = (add_to_history s, Notify.procError e) ∧
    (add_to_history s).current_image = s.current_image ∧
    cur ∈ (add_to_history s).history ∧
    (add_to_history s).original_image = s.original_image ∧
    (add_to_history s).operations_performed = s.operations_performed := by
  refine ⟨?_, add_to_history_current s, add_to_history_mem s cur hc hlen,
    add_to_history_original s, add_to_history_ops s⟩
  simp [process_with_progress, hc, hf]

theorem C8_witness :
    process_with_progress sLoaded (fun _ => Except.error "boom")
      = (add_to_history sLoaded, Notify.procError "boom") ∧
    (add_to_history sLoaded).current_image = sLoaded.current_image ∧
    img1 ∈ (add_to_history sLoaded).history ∧
    (add_to_history sLoaded).original_image = sLoaded.original_image ∧
    (add_to_history sLoaded).operations_performed
      = sLoaded.operations_performed :=
  C8_failed_op_state sLoaded (fun _ => Except.error "boom") img1 "boom"
    rfl rfl (by decide)

/-- C9: a resize request whose width or height fails to parse as an
integer or is nonpositive is rejected synchronously with the invalid
parameter error box, before any snapshot or dispatch: the session state
is returned unchanged. -/
theorem C9_invalid_resize_rejected (s : Session) (c : ImageBuffer)
    (wIn hIn : Option Int)
    (hc : s.current_image = some c)
    (hbad : wIn = none ∨ hIn = none ∨ (∃ w, wIn = some w ∧ w ≤ 0)
      ∨ (∃ h, hIn = some h ∧ h ≤ 0)) :
    resize_image s wIn hIn = (s, Notify.invalidParam) := by
  rcases hbad with h | h | ⟨w, hw, hw0⟩ | ⟨h2, hh, hh0⟩
  · subst h
    cases hIn <;> simp [resize_image, hc]
  · subst h
    cases wIn <;> simp [resize_image, hc]
  · subst hw
    cases hIn with
    | none => simp [resize_image, hc]
    | some hv => simp [resize_image, hc, hw0]
  · subst hh
    cases wIn with
    | none => simp [resize_image, hc]
    | some wv => simp [resize_image, hc, hh0]

theorem C9_witness :
    resize_image sLoaded (some 0) (some 50) = (sLoaded, Notify.invalidParam) :=
  C9_invalid_resize_rejected sLoaded img1 (some 0) (some 50) rfl
    (Or.inr (Or.inr (Or.inl ⟨0, rfl, by norm_num⟩)))

/-- C10: requesting an effect while no image is loaded is a silent
no-op: nothing is snapshotted or dispatched and the whole session state
(current and original buffers, history, cursor, statistics) is returned
unchanged. -/
theorem C10_no_image_silent_noop (s : Session)
    (proc : ImageBuffer → Except String ImageBuffer)
    (h : s.current_image = none) :
    process_with_progress s proc = (s, Notify.silent) := by
  unfold process_with_progress
  rw [h]

theorem C10_witness :
    process_with_progress emptySession (fun b => Except.ok b)
      = (emptySession, Notify.silent) :=
  C10_no_image_silent_noop emptySession (fun b => Except.ok b) rfl

/-! Helper lemmas for the pipeline claims. -/

theorem process_original (s : Session)
    (proc : ImageBuffer → Except String ImageBuffer) :
    (process_with_progress s proc).fst.original_image = s.original_image := by
  cases hc : s.current_image with
  | none => simp [process_with_progress, hc]
  | some c =>
    cases hp : proc c with
    | ok r => simp [process_with_progress, hc, hp, add_to_history_original]
    | error e => simp [process_with_progress, hc, hp, add_to_history_original]

theorem apply_adjustments_current (s : Session) (orig : ImageBuffer)
    (bri con sat : Rat)
    (ho : s.original_image = some orig) (hcs : s.current_image.isSome = true) :
    (apply_adjustments s bri con sat).fst.current_image
      = some (adjust orig bri con sat) := by
  obtain ⟨c, hc⟩ := Option.isSome_iff_exists.mp hcs
  simp [apply_adjustments, process_with_progress, ho, hc]

theorem apply_adjustments_original (s : Session) (bri con sat : Rat) :
    (apply_adjustments s bri con sat).fst.original_image = s.original_image := by
  cases ho : s.original_image with
  | none => simp [apply_adjustments, ho]
  | some orig =>
    have h1 : apply_adjustments s bri con sat
        = process_with_progress s (fun _ => Except.ok (adjust orig bri con sat)) := by
      simp [apply_adjustments, ho]
    rw [h1, process_original]
    exact ho

/-- C5: the apply-adjustments operation computes its result from the
original buffer (never from the current one), in the order brightness,
then contrast, then saturation; repeating the request with the same
multipliers yields the same current buffer as requesting it once, and
the result does not depend on the current buffer at all. -/
theorem C5_adjust_from_original (s : Session) (orig c c2 : ImageBuffer)
    (bri con sat : Rat)
    (ho : s.original_image = some orig) (hc : s.current_image = some c) :
    (apply_adjustments s bri con sat).fst.current_image
      = some (adjust orig bri con sat) ∧
    adjust orig bri con sat
      = saturationStage sat (contrastStage con (brightnessStage bri orig)) ∧
    (apply_adjustments (apply_adjustments s bri con sat).fst bri con sat).fst.current_image
      = (apply_adjustments s bri con sat).fst.current_image ∧
    (apply_adjustments { s with current_image := some c2 } bri con sat).fst.current_image
      = (apply_adjustments s bri con sat).fst.current_image := by
  have h1 := apply_adjustments_current s orig bri con sat ho (by rw [hc]; rfl)
  have horig : (apply_adjustments s bri con sat).fst.original_image = some orig := by
    rw [apply_adjustments_original s bri con sat]
    exact ho
  have h2 := apply_adjustments_current (apply_adjustments s bri con sat).fst orig
    bri con sat horig (by rw [h1]; rfl)
  have h3 := apply_adjustments_current { s with current_image := some c2 } orig
    bri con sat ho rfl
  exact ⟨h1, rfl, by rw [h2, h1], by rw [h3, h1]⟩

theorem C5_witness :
    (apply_adjustments sLoaded (3/2) (1/2) 2).fst.current_image
      = some (adjust img1 (3/2) (1/2) 2) ∧
    adjust img1 (3/2) (1/2) 2
      = saturationStage 2 (contrastStage (1/2) (brightnessStage (3/2) img1)) ∧
    (apply_adjustments (apply_adjustments sLoaded (3/2) (1/2) 2).fst
        (3/2) (1/2) 2).fst.current_image
      = (apply_adjustments sLoaded (3/2) (1/2) 2).fst.current_image ∧
    (apply_adjustments { sLoaded with current_image := some img2 }
        (3/2) (1/2) 2).fst.current_image
      = (apply_adjustments sLoaded (3/2) (1/2) 2).fst.current_image :=
  C5_adjust_from_original sLoaded img1 img1 img2 (3/2) (1/2) 2 rfl rfl

/-- C6: a tone-adjustment stage whose multiplier equals 1.0 is the
identity on pixel data, and in particular applying adjustments with
brightness, contrast and saturation all 1.0 yields the buffer it is
computed from unchanged. -/
theorem C6_multiplier_one_identity :
    (∀ img : ImageBuffer, brightnessStage 1 img = img) ∧
    (∀ img : ImageBuffer, contrastStage 1 img = img) ∧
    (∀ img : ImageBuffer, saturationStage 1 img = img) ∧
    (∀ orig : ImageBuffer, adjust orig 1 1 1 = orig) := by
  refine ⟨fun img => ?_, fun img => ?_, fun img => ?_, fun orig => ?_⟩ <;>
    simp [brightnessStage, contrastStage, saturationStage, adjust]

/-- C7: auto-enhance is exactly contrast times 1.2, then color times
1.1, then sharpness times 1.1, in that order, applied to the current
buffer; the original buffer plays no part in the result. -/
theorem C7_auto_enhance_composition (s : Session) (cur : ImageBuffer)
    (o2 : Option ImageBuffer) (hc : s.current_image = some cur) :
    (auto_enhance s).fst.current_image
      = some (enhanceSharpness (11/10)
          (enhanceColor (11/10) (enhanceContrast (12/10) cur))) ∧
    (auto_enhance { s with original_image := o2 }).fst.current_image
      = (auto_enhance s).fst.current_image := by
  have key : ∀ t : Session, t.current_image = some cur →
      (auto_enhance t).fst.current_image = some (auto_enhance_fn cur) := by
    intro t ht
    simp [auto_enhance, process_with_progress, ht]
  have hc2 : ({ s with original_image := o2 } : Session).current_image
      = some cur := hc
  exact ⟨key s hc, by rw [key _ hc2, key s hc]⟩

theorem C7_witness :
    (auto_enhance sLoaded).fst.current_image
      = some (enhanceSharpness (11/10)
          (enhanceColor (11/10) (enhanceContrast (12/10) img1))) ∧
    (auto_enhance { sLoaded with original_image := none }).fst.current_image
      = (auto_enhance sLoaded).fst.current_image :=
  C7_auto_enhance_composition sLoaded img1 none rfl

/-! The export claim: the code wraps the whole per-format loop in one
try/except, so the first failing encode aborts the remaining formats. -/

def badSave : Format → ImageBuffer → Except String Unit := fun fmt _ =>
  match fmt with
  | Format.png => Except.error "disk full"
  | _ => Except.ok ()

def badSave2 : Format → ImageBuffer → Except String Unit := fun fmt _ =>
  match fmt with
  | Format.jpeg => Except.error "disk full"
  | _ => Except.ok ()

/-- C2 counterexample: with an encoder that fails for PNG but succeeds
for JPEG and WebP, export_all_formats stops at the PNG failure: JPEG and
WebP are never encoded even though their encodes would succeed, so a
failure in one format does prevent the remaining formats. -/
theorem C2_counterexample :
    badSave Format.jpeg img1 = Except.ok () ∧
    badSave Format.webp img1 = Except.ok () ∧
    export_all_formats sLoaded badSave = ([], some "disk full") ∧
    Format.jpeg ∉ (export_all_formats sLoaded badSave).fst ∧
    Format.webp ∉ (export_all_formats sLoaded badSave).fst := by
  refine ⟨rfl, rfl, rfl, ?_, ?_⟩ <;> decide

/-- C2 amended: export_all_formats encodes PNG, JPEG, WebP sequentially
but not independently: the first encode failure aborts the loop, so no
later format is attempted; when every encode succeeds all three formats
are exported. -/
theorem C2_amended_first_failure_aborts (s : Session) (img : ImageBuffer)
    (save : Format → ImageBuffer → Except String Unit) (e : String)
    (hc : s.current_image = some img) :
    (save Format.png img = Except.error e →
      export_all_formats s save = ([], some e)) ∧
    (save Format.png img = Except.ok () → save Format.jpeg img = Except.error e →
      export_all_formats s save = ([Format.png], some e)) ∧
    (save Format.png img = Except.ok () → save Format.jpeg img = Except.ok () →
      save Format.webp img = Except.ok () →
      export_all_formats s save
        = ([Format.png, Format.jpeg, Format.webp], none)) := by
  refine ⟨?_, ?_, ?_⟩
  · intro hp
    simp [export_all_formats, export_loop, hc, hp]
  · intro hp hj
    simp [export_all_formats, export_loop, hc, hp, hj]
  · intro hp hj hw
    simp [export_all_formats, export_loop, hc, hp, hj, hw]

theorem C2_amended_witness :
    export_all_formats sLoaded badSave = ([], some "disk full") ∧
    export_all_formats sLoaded badSave2 = ([Format.png], some "disk full") :=
  ⟨(C2_amended_first_failure_aborts sLoaded img1 badSave "disk full" rfl).1 rfl,
   (C2_amended_first_failure_aborts sLoaded img1 badSave2 "disk full" rfl).2.1
     rfl rfl⟩

end ImageTool
